import Mathlib

/-!
# Verification of the pgx core: bindings rewriter and arena-pointer runtime

A shallow embedding, in Lean 4, of the core of the `pgx` repository:

* `PgBindingsRewriter` (`pgx-pg-bindings-generator/src/bindings_rewriter.rs`):
  the alias-resolution pass, the pointer-wrapping pass, `#[pg_guard]`
  injection on `extern "C"` blocks, and constructor synthesis;
* the arena-pointer runtime (`pgx-pg-sys/src/pgptr.rs`), the typed host list
  (`pgx-pg-sys/src/type_impls/list.rs`), the memory-context abstraction
  (`pgx/src/memcxt.rs`) and the relation handle (`pgx/src/rel.rs`).

Machine integers (`i32` indices, list lengths) are modelled as `Int`; raw
addresses are modelled as `Nat` with `0` standing for the null pointer.
Host (PostgreSQL) routines that the Rust code calls through FFI are modelled
as explicit state-passing functions over small executable heaps.
-/

namespace Pgx

/-! ## The `syn` type AST

The rewriter works on `syn::Type` values.  We embed the constructors the
rewriter distinguishes (`Ptr`, `BareFn`, `Group`, `Paren`, `Path`, `Array`)
plus a leaf `other` for everything matched by the catch-all `_ => {}` arms.
A `ReturnType::Default` (no return type) and non-type generic arguments
(lifetimes, const arguments) are embedded as the `other` leaf as well: the
rewriter never inspects or changes them, and neither do any of the
functions below, so the embedding is extensionally identical.

A path is a nonempty-in-practice sequence of segments, each an identifier
with optional generic arguments (`PathArguments::None`,
`::AngleBracketed`, `::Parenthesized`). -/

mutual

inductive RsType where
  | ptr (elem : RsType)
  | bareFn (inputs : RsTypes) (output : RsType)
  | group (elem : RsType)
  | paren (elem : RsType)
  | path (segs : Segs)
  | array (elem : RsType)
  | other

inductive RsTypes where
  | nil
  | cons (hd : RsType) (tl : RsTypes)

inductive Segs where
  | nil
  | cons (ident : String) (args : Args) (tl : Segs)

inductive Args where
  | none
  | angle (args : RsTypes)
  | parenthesized (inputs : RsTypes) (output : RsType)

end

deriving instance DecidableEq for RsType

deriving instance DecidableEq for RsTypes

deriving instance DecidableEq for Segs

deriving instance DecidableEq for Args

/-- A single-segment path with no generic arguments, e.g. `c_void`. -/
def pathOf (ident : String) : RsType :=
  .path (.cons ident .none .nil)

/-! ## The pointer-wrapping pass (`rewrite_type`)

`rewrite_type(&self, ty: &mut Type) -> bool` from `bindings_rewriter.rs`:
a `Type::Ptr` is replaced by `PgPtr<elem>` (returning `true`); `BareFn`,
`Group`, `Paren` and `Path` recurse one level, OR-ing the sub-results into
`rc`; everything else (`Type::Array` included, via the `_ => {}` arm) is
left alone.  We return the rewritten type together with the `rc` flag. -/

mutual

def rewriteType : RsType → RsType × Bool
  | .ptr elem =>
      -- `*ty = syn::parse2(quote! { PgPtr<#elem> })...; return true`
      (.path (.cons "PgPtr" (.angle (.cons elem .nil)) .nil), true)
  | .bareFn inputs output =>
      let i := rewriteTypes inputs
      let o := rewriteType output
      (.bareFn i.1 o.1, i.2 || o.2)
  | .group elem =>
      let r := rewriteType elem
      (.group r.1, r.2)
  | .paren elem =>
      let r := rewriteType elem
      (.paren r.1, r.2)
  | .path segs =>
      let r := rewriteSegs segs
      (.path r.1, r.2)
  | .array elem => (.array elem, false)
  | .other => (.other, false)

def rewriteTypes : RsTypes → RsTypes × Bool
  | .nil => (.nil, false)
  | .cons hd tl =>
      let r := rewriteType hd
      let rs := rewriteTypes tl
      (.cons r.1 rs.1, r.2 || rs.2)

def rewriteSegs : Segs → Segs × Bool
  | .nil => (.nil, false)
  | .cons ident args tl =>
      let a := rewriteArgs args
      let r := rewriteSegs tl
      (.cons ident a.1 r.1, a.2 || r.2)

def rewriteArgs : Args → Args × Bool
  | .none => (.none, false)
  | .angle args =>
      let r := rewriteTypes args
      (.angle r.1, r.2)
  | .parenthesized inputs output =>
      let ri := rewriteTypes inputs
      let ro := rewriteType output
      (.parenthesized ri.1 ro.1, ri.2 || ro.2)

end

/-! Occurrence counting and ptr-freedom predicates, used to settle the
"no raw pointer remains" claim.  `hasPtrAny` looks inside every
constructor (array elements included); `reachHasPtr` visits exactly the
positions `rewrite_type` visits (so it does not enter arrays or leaves). -/

mutual

def hasPtrAny : RsType → Bool
  | .ptr _ => true
  | .bareFn inputs output => hasPtrAnyTypes inputs || hasPtrAny output
  | .group elem => hasPtrAny elem
  | .paren elem => hasPtrAny elem
  | .path segs => hasPtrAnySegs segs
  | .array elem => hasPtrAny elem
  | .other => false

def hasPtrAnyTypes : RsTypes → Bool
  | .nil => false
  | .cons hd tl => hasPtrAny hd || hasPtrAnyTypes tl

def hasPtrAnySegs : Segs → Bool
  | .nil => false
  | .cons _ args tl => hasPtrAnyArgs args || hasPtrAnySegs tl

def hasPtrAnyArgs : Args → Bool
  | .none => false
  | .angle args => hasPtrAnyTypes args
  | .parenthesized inputs output => hasPtrAnyTypes inputs || hasPtrAny output

end

mutual

def reachHasPtr : RsType → Bool
  | .ptr _ => true
  | .bareFn inputs output => reachHasPtrTypes inputs || reachHasPtr output
  | .group elem => reachHasPtr elem
  | .paren elem => reachHasPtr elem
  | .path segs => reachHasPtrSegs segs
  | .array _ => false
  | .other => false

def reachHasPtrTypes : RsTypes → Bool
  | .nil => false
  | .cons hd tl => reachHasPtr hd || reachHasPtrTypes tl

def reachHasPtrSegs : Segs → Bool
  | .nil => false
  | .cons _ args tl => reachHasPtrArgs args || reachHasPtrSegs tl

def reachHasPtrArgs : Args → Bool
  | .none => false
  | .angle args => reachHasPtrTypes args
  | .parenthesized inputs output => reachHasPtrTypes inputs || reachHasPtr output

end

mutual

def reachPtrCount : RsType → Nat
  | .ptr elem => reachPtrCount elem + 1
  | .bareFn inputs output => reachPtrCountTypes inputs + reachPtrCount output
  | .group elem => reachPtrCount elem
  | .paren elem => reachPtrCount elem
  | .path segs => reachPtrCountSegs segs
  | .array _ => 0
  | .other => 0

def reachPtrCountTypes : RsTypes → Nat
  | .nil => 0
  | .cons hd tl => reachPtrCount hd + reachPtrCountTypes tl

def reachPtrCountSegs : Segs → Nat
  | .nil => 0
  | .cons _ args tl => reachPtrCountArgs args + reachPtrCountSegs tl

def reachPtrCountArgs : Args → Nat
  | .none => 0
  | .angle args => reachPtrCountTypes args
  | .parenthesized inputs output => reachPtrCountTypes inputs + reachPtrCount output

end

/-- The caller-side fixed point `while self.rewrite_type(&mut ty) {}`,
run on a fuel budget; `fixRewrite` supplies enough fuel
(`reachPtrCount ty + 1`) for the loop to reach its fixed point, as proved
in `rewriteFix_no_reach_ptr` below. -/
def rewriteFix : Nat → RsType → RsType
  | 0, ty => ty
  | Nat.succ n, ty =>
      let r := rewriteType ty
      if r.2 then rewriteFix n r.1 else r.1

def fixRewrite (ty : RsType) : RsType :=
  rewriteFix (reachPtrCount ty + 1) ty

/-! ## The alias-resolution pass (`replace_type_aliases` / `replace_alias_usage`)

The alias map sends an alias identifier to the path of the pointee struct
(`aliases.insert(alias.ident, type_path.path)`); a `HashMap` insert
overwrites, which the assoc-list models by prepending together with a
first-match lookup. -/

abbrev AliasMap : Type := List (String × Segs)

def lookupAlias : AliasMap → String → Option Segs
  | [], _ => Option.none
  | (k, v) :: tl, ident => if k = ident then some v else lookupAlias tl ident

def insertAlias (m : AliasMap) (k : String) (v : Segs) : AliasMap :=
  (k, v) :: m

/-! `replace_alias_usage(&self, ty: &mut Type, aliases: &HashMap<..>)`:
`Ptr` recurses into the pointee, `Array` is explicitly skipped
(`Type::Array(_) => {}`), `BareFn` recurses into inputs and return type,
`Group`/`Paren` recurse, and for a `Path` the ident of the *first* segment
is looked up: on a hit the whole type becomes `*mut target`; on a miss
every segment's generic arguments are processed recursively. -/

mutual

def replaceAlias (m : AliasMap) : RsType → RsType
  | .ptr elem => .ptr (replaceAlias m elem)
  | .array elem => .array elem
  | .bareFn inputs output =>
      .bareFn (replaceAliasTypes m inputs) (replaceAlias m output)
  | .group elem => .group (replaceAlias m elem)
  | .paren elem => .paren (replaceAlias m elem)
  | .path .nil => .path .nil
  | .path (.cons ident args tl) =>
      match lookupAlias m ident with
      | some target => .ptr (.path target)
      | Option.none => .path (.cons ident (replaceAliasArgs m args) (replaceAliasSegs m tl))
  | .other => .other

def replaceAliasTypes (m : AliasMap) : RsTypes → RsTypes
  | .nil => .nil
  | .cons hd tl => .cons (replaceAlias m hd) (replaceAliasTypes m tl)

def replaceAliasSegs (m : AliasMap) : Segs → Segs
  | .nil => .nil
  | .cons ident args tl => .cons ident (replaceAliasArgs m args) (replaceAliasSegs m tl)

def replaceAliasArgs (m : AliasMap) : Args → Args
  | .none => .none
  | .angle args => .angle (replaceAliasTypes m args)
  | .parenthesized inputs output =>
      .parenthesized (replaceAliasTypes m inputs) (replaceAlias m output)

end

/-! A type *uses* an alias when a path whose head segment is in the map
occurs at one of the positions `replace_alias_usage` visits (the pass never
enters `Type::Array`, and only head segments are looked up, matching the
code).  `hasAliasUse m ty = false` means the pass left no unresolved use
site behind. -/

mutual

def hasAliasUse (m : AliasMap) : RsType → Bool
  | .ptr elem => hasAliasUse m elem
  | .array _ => false
  | .bareFn inputs output => hasAliasUseTypes m inputs || hasAliasUse m output
  | .group elem => hasAliasUse m elem
  | .paren elem => hasAliasUse m elem
  | .path .nil => false
  | .path (.cons ident args tl) =>
      (lookupAlias m ident).isSome || hasAliasUseArgs m args || hasAliasUseSegs m tl
  | .other => false

def hasAliasUseTypes (m : AliasMap) : RsTypes → Bool
  | .nil => false
  | .cons hd tl => hasAliasUse m hd || hasAliasUseTypes m tl

def hasAliasUseSegs (m : AliasMap) : Segs → Bool
  | .nil => false
  | .cons _ args tl => hasAliasUseArgs m args || hasAliasUseSegs m tl

def hasAliasUseArgs (m : AliasMap) : Args → Bool
  | .none => false
  | .angle args => hasAliasUseTypes m args
  | .parenthesized inputs output => hasAliasUseTypes m inputs || hasAliasUse m output

end

/-- A map is resolved when no target path itself mentions an aliased name
(the common case: targets are struct names).  Under this condition the
pass eliminates every use site it can reach. -/
def resolvedMap (m : AliasMap) : Bool :=
  m.all fun kv => !(hasAliasUse m (.path kv.2))

/-! ## The declaration tree

Items as the rewriter distinguishes them: structs (name and field types),
`extern "C"` blocks (attribute list plus foreign fns/statics), type
aliases, and the `impl New for PgPtr<S>` blocks the rewriter synthesizes.
Everything else falls under `otherItem` (the `_ => {}` arm of `rewrite`). -/

inductive ForeignItemM where
  | fnItem (name : String) (inputs : List RsType) (output : RsType)
  | staticItem (name : String) (ty : RsType)
  | otherForeign

inductive ItemM where
  | structItem (name : String) (fields : List RsType)
  | foreignMod (attrs : List String) (items : List ForeignItemM)
  | typeAlias (name : String) (body : RsType)
  | newImpl (structName : String)
  | otherItem

deriving instance DecidableEq for ForeignItemM

deriving instance DecidableEq for ItemM

/-- First phase of `replace_type_aliases`: collect every type alias whose
body is a single-level pointer to a path (`if let Type::Ptr(ptr); if let
Type::Path(type_path) = ptr.elem`). -/
def buildAliases (items : List ItemM) : AliasMap :=
  items.foldl
    (fun m it =>
      match it with
      | .typeAlias name (.ptr (.path segs)) => insertAlias m name segs
      | _ => m)
    []

/-- Second phase of `replace_type_aliases`: apply `replace_alias_usage` to
every struct field, every foreign fn argument and return type, every
foreign static, and every type alias body. -/
def applyAliasItem (m : AliasMap) : ItemM → ItemM
  | .structItem name fields => .structItem name (fields.map (replaceAlias m))
  | .foreignMod attrs fitems =>
      .foreignMod attrs
        (fitems.map fun fit =>
          match fit with
          | .fnItem name inputs output =>
              .fnItem name (inputs.map (replaceAlias m)) (replaceAlias m output)
          | .staticItem name ty => .staticItem name (replaceAlias m ty)
          | .otherForeign => .otherForeign)
  | .typeAlias name body => .typeAlias name (replaceAlias m body)
  | it => it

def replaceTypeAliasesFile (items : List ItemM) : List ItemM :=
  items.map (applyAliasItem (buildAliases items))

/-! ## Guard injection and per-item pointer rewriting -/

/-- `rewrite_foreign_mod`: push the `#[pg_guard]` attribute onto the
`extern "C"` block, then run the pointer-wrapping fixed point on every fn
argument, fn return type and static type. -/
def rewriteForeignMod (attrs : List String) (fitems : List ForeignItemM) : ItemM :=
  .foreignMod (attrs ++ ["pg_guard"])
    (fitems.map fun fit =>
      match fit with
      | .fnItem name inputs output =>
          .fnItem name (inputs.map fixRewrite) (fixRewrite output)
      | .staticItem name ty => .staticItem name (fixRewrite ty)
      | .otherForeign => .otherForeign)

/-- The per-item arm of the main loop in `rewrite`. -/
def rewriteItem : ItemM → ItemM
  | .structItem name fields => .structItem name (fields.map fixRewrite)
  | .foreignMod attrs fitems => rewriteForeignMod attrs fitems
  | .typeAlias name body => .typeAlias name (fixRewrite body)
  | it => it

/-- The struct idents collected by the main loop (`structs.push(...)`). -/
def structIdents (items : List ItemM) : List String :=
  items.foldr
    (fun it acc =>
      match it with
      | .structItem name _ => name :: acc
      | _ => acc)
    []

/-- `starts_with("_")` on the struct ident. -/
def startsUnderscore (s : String) : Bool :=
  match s.data with
  | [] => false
  | c :: _ => c == '_'

/-- The constructor-synthesis exemption set: `List`, `RelationData`, and
internal-convention names beginning with `_`. -/
def exemptStruct (name : String) : Bool :=
  name == "List" || name == "RelationData" || startsUnderscore name

/-- The `impl New for PgPtr<#ident>` blocks appended by `rewrite`. -/
def newImpls (names : List String) : List ItemM :=
  (names.filter fun n => !exemptStruct n).map ItemM.newImpl

/-- `PgBindingsRewriter::rewrite` (post-parse): alias resolution, the
per-item rewriting loop, then the synthesized `New` impls appended at the
end of the file. -/
def rewriteFile (items : List ItemM) : List ItemM :=
  let items1 := replaceTypeAliasesFile items
  items1.map rewriteItem ++ newImpls (structIdents items1)

/-! ## The arena pointer (`pgx-pg-sys/src/pgptr.rs`)

`#[repr(transparent)] pub struct PgPtr<T>(pub(crate) *const T)`: a typed,
copyable handle wrapping a single raw address.  Addresses are `Nat`, with
`0` for null. -/

structure PgPtr (α : Type) where
  addr : Nat
deriving DecidableEq

/-- `PgPtr::null_mut()`. -/
def PgPtr.null_mut (α : Type) : PgPtr α := ⟨0⟩

/-- `PgPtr::cast::<C>(&self) -> PgPtr<C>`: `PgPtr(self.0 as *const C)`. -/
def PgPtr.cast {α : Type} (β : Type) (p : PgPtr α) : PgPtr β := ⟨p.addr⟩

/-- `PgPtr::is_null(&self)`: `self.0 == std::ptr::null_mut()`. -/
def PgPtr.is_null {α : Type} (p : PgPtr α) : Bool := p.addr == 0

/-- `impl<T> Clone for PgPtr<T>`: `PgPtr(self.0)`. -/
def PgPtr.clone {α : Type} (p : PgPtr α) : PgPtr α := ⟨p.addr⟩

/-! ## The typed host list (`pgx-pg-sys/src/type_impls/list.rs`)

A `PgPtr<List>` handle is an address into a host heap of list records.
Each record is a sequence of cells; a cell is a (cell address, value)
pair, the single value mirroring the `ListCell.data` union that stores
`ptr_value`/`int_value`/`oid_value` in the same storage.  Host routines
(`lappend*`, `list_truncate`, `pgx_list_nth*`) are modelled as explicit
functions on this heap; an out-of-range cell access by the host is a
fault (`Res.fault`), since the host record has no cell there. -/

structure HostHeap where
  lists : List (Nat × List (Nat × Int))
  nextAddr : Nat
deriving DecidableEq

/-- Result of a Rust-level list operation: `ok` carries the value the
method returns, `fault` marks a call that hands the host an index outside
the record (undefined behavior on the host side, never a normal return). -/
inductive Res (α : Type) where
  | ok (val : α)
  | fault
deriving DecidableEq

def lookupL : List (Nat × List (Nat × Int)) → Nat → Option (List (Nat × Int))
  | [], _ => Option.none
  | (k, v) :: tl, a => if k = a then some v else lookupL tl a

/-- Update the record stored at address `a` (first match, like lookup). -/
def updateList : List (Nat × List (Nat × Int)) → Nat →
    (List (Nat × Int) → List (Nat × Int)) → List (Nat × List (Nat × Int))
  | [], _, _ => []
  | (k, v) :: tl, a, f => if k = a then (k, f v) :: tl else (k, v) :: updateList tl a f

def cellsOf (h : HostHeap) (p : Nat) : List (Nat × Int) :=
  (lookupL h.lists p).getD []

/-- `len(&self) -> i32`: `if self.is_null() { 0 } else { self.length }`;
the `length` field of the host record is the number of cells. -/
def pgListLen (h : HostHeap) (p : Nat) : Int :=
  if p = 0 then 0 else (cellsOf h p).length

/-- `is_empty(&self)`: `self.len() == 0`. -/
def pgListIsEmpty (h : HostHeap) (p : Nat) : Bool :=
  pgListLen h p == 0

/-- The host's `list_nth`-style cell read shared by the three
`pgx_list_nth*` shims: defined only for a non-null list and an index
inside the record. -/
def hostNthCell (h : HostHeap) (p : Nat) (i : Int) : Option (Nat × Int) :=
  if p = 0 then Option.none
  else
    match lookupL h.lists p with
    | Option.none => Option.none
    | some cells => if 0 ≤ i then cells.get? i.toNat else Option.none

/-- `pgx_list_nth_int` (cshim → `list_nth_int`). -/
def pgxListNthInt (h : HostHeap) (p : Nat) (i : Int) : Option Int :=
  (hostNthCell h p i).map Prod.snd

/-- `pgx_list_nth_oid` (cshim → `list_nth_oid`). -/
def pgxListNthOid (h : HostHeap) (p : Nat) (i : Int) : Option Int :=
  (hostNthCell h p i).map Prod.snd

/-- `pgx_list_nth` (cshim → `list_nth`): the cell's pointer value. -/
def pgxListNthPtr (h : HostHeap) (p : Nat) (i : Int) : Option Int :=
  (hostNthCell h p i).map Prod.snd

/-- `pgx_list_nth_cell` (cshim → `list_nth_cell`): the cell's address. -/
def pgxListNthCell (h : HostHeap) (p : Nat) (i : Int) : Option Nat :=
  (hostNthCell h p i).map Prod.fst

/-- `get_i32(&self, i) -> Option<i32>`: `if i >= self.len() { None } else
{ Some(pgx_list_nth_int(*self, i)) }`.  Note the check is only an upper
bound: a negative `i` on a short list reaches the host. -/
def getI32 (h : HostHeap) (p : Nat) (i : Int) : Res (Option Int) :=
  if i ≥ pgListLen h p then .ok Option.none
  else
    match pgxListNthInt h p i with
    | some v => .ok (some v)
    | Option.none => .fault

/-- `get_oid`, same shape as `get_i32`. -/
def getOid (h : HostHeap) (p : Nat) (i : Int) : Res (Option Int) :=
  if i ≥ pgListLen h p then .ok Option.none
  else
    match pgxListNthOid h p i with
    | some v => .ok (some v)
    | Option.none => .fault

/-- `get_ptr(&self, i) -> Option<&T>`:
`Some(pgx_list_nth(*self, i).cast::<T>().deref())`; the `deref` panics on
a null element, which the model reports as a fault as well. -/
def getPtr (h : HostHeap) (p : Nat) (i : Int) : Res (Option Int) :=
  if i ≥ pgListLen h p then .ok Option.none
  else
    match pgxListNthPtr h p i with
    | some v => if v = 0 then .fault else .ok (some v)
    | Option.none => .fault

/-- `tail_i32(&self)`: `self.get_i32(self.len() - 1)`. -/
def tailI32 (h : HostHeap) (p : Nat) : Res (Option Int) :=
  getI32 h p (pgListLen h p - 1)

def tailOid (h : HostHeap) (p : Nat) : Res (Option Int) :=
  getOid h p (pgListLen h p - 1)

def tailPtr (h : HostHeap) (p : Nat) : Res (Option Int) :=
  getPtr h p (pgListLen h p - 1)

/-- Host `lappend_int` (and, via the shared cell union, `lappend_oid` /
`lappend`): appending to `NIL` builds a fresh one-cell list at a fresh
address; appending to an existing list extends its record and returns the
same header address.  Returns the (possibly new) list address. -/
def lappendVal (h : HostHeap) (p : Nat) (x : Int) : HostHeap × Nat :=
  if p = 0 then
    (⟨(h.nextAddr, [(h.nextAddr + 1, x)]) :: h.lists, h.nextAddr + 2⟩, h.nextAddr)
  else
    (⟨updateList h.lists p (fun cells => cells ++ [(h.nextAddr, x)]), h.nextAddr + 1⟩, p)

/-- Host `list_truncate(list, new_size)`: `NIL` stays `NIL`; a size not
below the live length leaves the list untouched; a nonpositive size
yields `NIL`; otherwise the record keeps its first `new_size` cells and
the same address. -/
def listTruncate (h : HostHeap) (p : Nat) (n : Int) : HostHeap × Nat :=
  if p = 0 then (h, 0)
  else if n ≤ 0 then (h, 0)
  else if n ≥ pgListLen h p then (h, p)
  else (⟨updateList h.lists p (fun cells => cells.take n.toNat), h.nextAddr⟩, p)

/-- `push_i32(&mut self, i)`: `self.0 = lappend_int(PgPtr(self.0), i).0`
— the handle is reassigned from the host routine's result. -/
def pushI32 (h : HostHeap) (p : Nat) (x : Int) : HostHeap × Nat :=
  lappendVal h p x

/-- `push_oid`, identical shape via `lappend_oid`. -/
def pushOid (h : HostHeap) (p : Nat) (x : Int) : HostHeap × Nat :=
  lappendVal h p x

/-- `push_ptr`, identical shape via `lappend`. -/
def pushPtr (h : HostHeap) (p : Nat) (x : Int) : HostHeap × Nat :=
  lappendVal h p x

/-- `pop_i32(&mut self) -> Option<i32>`: match on `tail_i32`; on `Some`,
`self.0 = list_truncate(PgPtr(self.0), self.len() - 1).0` and the tail
value is returned; the result carries (value, heap, reassigned handle). -/
def popI32 (h : HostHeap) (p : Nat) : Res (Option Int × HostHeap × Nat) :=
  match tailI32 h p with
  | .fault => .fault
  | .ok Option.none => .ok (Option.none, h, p)
  | .ok (some tail) =>
      let t := listTruncate h p (pgListLen h p - 1)
      .ok (some tail, t.1, t.2)

def popOid (h : HostHeap) (p : Nat) : Res (Option Int × HostHeap × Nat) :=
  match tailOid h p with
  | .fault => .fault
  | .ok Option.none => .ok (Option.none, h, p)
  | .ok (some tail) =>
      let t := listTruncate h p (pgListLen h p - 1)
      .ok (some tail, t.1, t.2)

def popPtr (h : HostHeap) (p : Nat) : Res (Option Int × HostHeap × Nat) :=
  match tailPtr h p with
  | .fault => .fault
  | .ok Option.none => .ok (Option.none, h, p)
  | .ok (some tail) =>
      let t := listTruncate h p (pgListLen h p - 1)
      .ok (some tail, t.1, t.2)

/-- Write `x` into the value slot of cell `i` (the effect of
`*cell.data.int_value.as_mut() = with` through the cell returned by
`pgx_list_nth_cell`); the cell keeps its address and the list keeps its
header address. -/
def writeCellVal (h : HostHeap) (p : Nat) (i : Int) (x : Int) : HostHeap :=
  ⟨updateList h.lists p
      (fun cells => cells.mapIdx fun j c => if (j : Int) = i then (c.1, x) else c),
    h.nextAddr⟩

/-- `replace_i32(&mut self, i, with) -> Option<i32>`: match on
`get_i32(i)`; on `Some`, fetch the cell via `pgx_list_nth_cell` and write
the new value in place.  The handle (`self.0`) is never reassigned. -/
def replaceI32 (h : HostHeap) (p : Nat) (i : Int) (x : Int) :
    Res (Option Int × HostHeap × Nat) :=
  match getI32 h p i with
  | .fault => .fault
  | .ok Option.none => .ok (Option.none, h, p)
  | .ok (some old) =>
      match pgxListNthCell h p i with
      | Option.none => .fault
      | some _cell => .ok (some old, writeCellVal h p i x, p)

def replaceOid (h : HostHeap) (p : Nat) (i : Int) (x : Int) :
    Res (Option Int × HostHeap × Nat) :=
  match getOid h p i with
  | .fault => .fault
  | .ok Option.none => .ok (Option.none, h, p)
  | .ok (some old) =>
      match pgxListNthCell h p i with
      | Option.none => .fault
      | some _cell => .ok (some old, writeCellVal h p i x, p)

def replacePtr (h : HostHeap) (p : Nat) (i : Int) (x : Int) :
    Res (Option Int × HostHeap × Nat) :=
  match getPtr h p i with
  | .fault => .fault
  | .ok Option.none => .ok (Option.none, h, p)
  | .ok (some old) =>
      match pgxListNthCell h p i with
      | Option.none => .fault
      | some _cell => .ok (some old, writeCellVal h p i x, p)

/-- `PgPtr::<List>::new::<T>()`: `PgPtr::null_mut()` — no host call, no
allocation, the heap is untouched and the returned handle is null. -/
def pgListNew (h : HostHeap) : HostHeap × Nat :=
  (h, 0)

/-- A handle is valid when it is null or its address is bound in the heap. -/
def ValidHandle (h : HostHeap) (p : Nat) : Prop :=
  p = 0 ∨ ∃ cells, lookupL h.lists p = some cells

/-- Heap wellformedness: the fresh-address source is nonzero (the host
never allocates at the null address). -/
def HeapWF (h : HostHeap) : Prop :=
  0 < h.nextAddr

/-! ## Memory contexts (`pgx/src/memcxt.rs`)

The process-wide state visible to this layer: `CurrentMemoryContext`, the
host's named top-level contexts, the fresh-context source backing
`AllocSetContextCreateExtended`, the chunk→owning-context relation read
by `pgx_GetMemoryContextChunk`, and — for the allocation claims — a log
of `palloc`/`palloc0` requests together with the fresh-pointer source. -/

structure AllocRec where
  ctx : Nat
  size : Nat
  zeroed : Bool
deriving DecidableEq

structure MemCxtState where
  current : Nat
  top : Nat
  portal : Nat
  errorCxt : Nat
  postmaster : Nat
  cache : Nat
  message : Nat
  topTransaction : Nat
  curTransaction : Nat
  nextCtx : Nat
  chunkOwner : List (Nat × Nat)
  log : List AllocRec
  nextPtr : Nat
deriving DecidableEq

/-- Host `AllocSetContextCreateExtended`: a fresh context address. -/
def allocSetContextCreate (s : MemCxtState) (_parent : Nat) : MemCxtState × Nat :=
  ({ s with nextCtx := s.nextCtx + 1 }, s.nextCtx)

/-- Host `MemoryContextDelete`: frees the context's storage; no field of
the modelled state changes (in particular it does not touch
`CurrentMemoryContext`). -/
def memoryContextDelete (s : MemCxtState) (_ctx : Nat) : MemCxtState :=
  s

/-- `pgx_GetMemoryContextChunk` (cshim `GetMemoryChunkContext`). -/
def getContextForPointer (s : MemCxtState) (ptr : Nat) : Nat :=
  ((s.chunkOwner.lookup ptr).getD 0)

/-- The `PgMemoryContexts` enum: nine well-known host arenas plus the four
dynamic variants.  `Transient` carries the arguments forwarded to
`AllocSetContextCreateExtended`. -/
inductive PgMemoryContexts where
  | CurrentMemoryContext
  | TopMemoryContext
  | PortalContext
  | ErrorContext
  | PostmasterContext
  | CacheMemoryContext
  | MessageContext
  | TopTransactionContext
  | CurTransactionContext
  | For (mc : Nat)
  | Owned (mc : Nat)
  | Of (ptr : Nat)
  | Transient (parent : Nat) (name : String)
      (min_context_size initial_block_size max_block_size : Nat)

/-- `PgMemoryContexts::value(&self) -> MemoryContext`: resolves every
variant to a concrete context address except `Transient`, which panics
(`Option.none` here). -/
def PgMemoryContexts.value (sel : PgMemoryContexts) (s : MemCxtState) : Option Nat :=
  match sel with
  | .CurrentMemoryContext => some s.current
  | .TopMemoryContext => some s.top
  | .PortalContext => some s.portal
  | .ErrorContext => some s.errorCxt
  | .PostmasterContext => some s.postmaster
  | .CacheMemoryContext => some s.cache
  | .MessageContext => some s.message
  | .TopTransactionContext => some s.topTransaction
  | .CurTransactionContext => some s.curTransaction
  | .For mc => some mc
  | .Owned mc => some mc
  | .Of ptr => some (getContextForPointer s ptr)
  | .Transient _ _ _ _ _ => Option.none

/-- What a closure body does when run: it may mutate the state arbitrarily
(including switching contexts itself) and then either return a value or
raise a recoverable host-side fault (a Postgres `ERROR` crossing a
guarded boundary). -/
inductive BodyOut (α : Type) where
  | ret (val : α)
  | fault

/-- Outcome surfaced by the guard to the caller. -/
inductive GuardRes (α : Type) where
  | ok (val : α)
  | caught

/-- Modelled from the spec: `guard::guard` (`pgx/src/guard.rs`, whose
source is not part of this corpus) wraps the body so that a recoverable
host-side fault raised inside it is intercepted at the boundary and
surfaced as an ordinary failure value; in both cases `guard` itself
returns normally to its caller. -/
def guardRun {α : Type} (f : MemCxtState → MemCxtState × BodyOut α)
    (s : MemCxtState) : MemCxtState × GuardRes α :=
  let r := f s
  (r.1, match r.2 with
        | .ret v => .ok v
        | .fault => .caught)

/-- `PgMemoryContexts::exec_in_context`: save `CurrentMemoryContext`, set
it to `context`, run the body under `guard::guard`, and restore the saved
context before returning the guarded result. -/
def execInContext {α : Type} (context : Nat)
    (f : MemCxtState → MemCxtState × BodyOut α) (s : MemCxtState) :
    MemCxtState × GuardRes α :=
  let prev_context := s.current
  let s1 := { s with current := context }
  let r := guardRun f s1
  ({ r.1 with current := prev_context }, r.2)

/-- `PgMemoryContexts::switch_to(self, f)`: the `Transient` variant first
creates a temporary context, executes in it and deletes it afterwards;
every other variant executes in the context `value()` resolves to. -/
def switchTo {α : Type} (sel : PgMemoryContexts)
    (f : MemCxtState → MemCxtState × BodyOut α) (s : MemCxtState) :
    MemCxtState × GuardRes α :=
  match sel with
  | .Transient parent _ _ _ _ =>
      let c := allocSetContextCreate s parent
      let r := execInContext c.2 f c.1
      (memoryContextDelete r.1 c.2, r.2)
  | sel =>
      execInContext ((sel.value s).getD 0) f s

/-! ## The raw allocation primitives (`pgx-pg-sys/src/pgptr.rs`)

`palloc`/`palloc0` call the host primitives of the same name through a
guarded extern block; the host draws the request from whatever
`CurrentMemoryContext` holds at call time.  The model logs each request
with the arena it was served from. -/

/-- `palloc<T>(size)`: request `size` uninitialized bytes from the
currently active arena. -/
def palloc (s : MemCxtState) (size : Nat) : MemCxtState × Nat :=
  ({ s with log := s.log ++ [⟨s.current, size, false⟩], nextPtr := s.nextPtr + 1 },
    s.nextPtr)

/-- `palloc0<T>(size)`: request `size` zero-initialized bytes from the
currently active arena. -/
def palloc0 (s : MemCxtState) (size : Nat) : MemCxtState × Nat :=
  ({ s with log := s.log ++ [⟨s.current, size, true⟩], nextPtr := s.nextPtr + 1 },
    s.nextPtr)

/-- The body of the synthesized `fn new()` for struct `S`:
`crate::pgptr::palloc(std::mem::size_of::<S>())`.  `szOf` is the
compile-time `size_of` assignment. -/
def runNew (sname : String) (szOf : String → Nat) (s : MemCxtState) :
    MemCxtState × Nat :=
  palloc s (szOf sname)

/-- The body of the synthesized `fn new0()` for struct `S`:
`crate::pgptr::palloc0(std::mem::size_of::<S>())`. -/
def runNew0 (sname : String) (szOf : String → Nat) (s : MemCxtState) :
    MemCxtState × Nat :=
  palloc0 s (szOf sname)

/-! ## The relation handle (`pgx/src/rel.rs`) -/

/-- The host close routines a `PgRelation` drop can issue:
`RelationClose` (no lock released) and `relation_close` (releases the
recorded lock mode). -/
inductive CloseCall where
  | RelationClose (rel : Nat)
  | relation_close (rel : Nat) (lockmode : Int)
deriving DecidableEq

structure PgRelation where
  boxed : Nat
  lockmode : Option Int
deriving DecidableEq

/-- `impl From<PgPtr<pg_sys::RelationData>> for PgRelation`: wraps the
pointer as-is with no lock mode. -/
def PgRelation.fromPtr (r : Nat) : PgRelation :=
  ⟨r, Option.none⟩

/-- `PgRelation::open(oid)`: `RelationIdGetRelation`, panicking
(`Option.none`) when the relation was concurrently deleted (null);
otherwise no lock mode is recorded.  `hostGetRel` is the host lookup. -/
def PgRelation.openRel (hostGetRel : Nat → Nat) (oid : Nat) : Option PgRelation :=
  let rel := hostGetRel oid
  if rel = 0 then Option.none else some ⟨rel, Option.none⟩

/-- `PgRelation::with_lock(oid, lockmode)`: `relation_open(oid, lockmode)`
(which on the host either returns a valid relation or raises an error —
it never returns null), recording the lock mode. -/
def PgRelation.with_lock (hostRelationOpen : Nat → Int → Nat) (oid : Nat)
    (lockmode : Int) : PgRelation :=
  ⟨hostRelationOpen oid lockmode, some lockmode⟩

/-- `impl Drop for PgRelation`: the close calls issued when the handle is
dropped — `relation_close(rel, m)` when a lock mode was recorded,
`RelationClose(rel)` when none was, and nothing at all when the wrapped
pointer is null. -/
def PgRelation.dropCalls (r : PgRelation) : List CloseCall :=
  if r.boxed ≠ 0 then
    match r.lockmode with
    | Option.none => [.RelationClose r.boxed]
    | some m => [.relation_close r.boxed m]
  else []

/-! # Theorems -/

/-- C9: for every handle `p : PgPtr<T>` and every type `U`, `cast::<U>()`
wraps exactly the same address as `p`, the round trip
`p.cast::<U>().cast::<T>()` equals `p`, `p.clone()` equals `p`, and
`is_null` is invariant under `cast` and `clone`. -/
theorem pgptr_cast_clone_address (α β : Type) (p : PgPtr α) :
    (p.cast β).addr = p.addr ∧
    (p.cast β).cast α = p ∧
    p.clone = p ∧
    (p.cast β).is_null = p.is_null ∧
    p.clone.is_null = p.is_null := by
  refine ⟨rfl, rfl, rfl, rfl, rfl⟩

/-- C2: for every arena selector and body, `switch_to` leaves the
process-wide `CurrentMemoryContext` equal to its value from before the
call.  The body `f` is an arbitrary state transformer that either returns
normally or raises a recoverable host-side fault caught at the guard
boundary; the final two conjuncts spell out the two exit paths. -/
theorem switch_to_restores_current {α : Type} (sel : PgMemoryContexts)
    (f : MemCxtState → MemCxtState × BodyOut α) (s : MemCxtState) :
    (switchTo sel f s).1.current = s.current ∧
    (∀ (g : MemCxtState → MemCxtState) (v : α),
      (switchTo sel (fun t => (g t, BodyOut.ret v)) s).1.current = s.current) ∧
    (∀ g : MemCxtState → MemCxtState,
      (switchTo sel (fun t => (g t, (BodyOut.fault : BodyOut α))) s).1.current =
        s.current) := by
  refine ⟨?_, fun g v => ?_, fun g => ?_⟩ <;>
    cases sel <;>
      simp [switchTo, execInContext, guardRun, allocSetContextCreate,
        memoryContextDelete]

/-- C8, counterexample: a `PgRelation` constructed without a lock mode via
the `From<PgPtr<RelationData>>` conversion from a null pointer issues *no*
close call on drop — not the non-releasing `RelationClose(rel)` the claim
requires for every `lockmode = None` handle. -/
theorem pgrelation_drop_null_issues_no_close :
    PgRelation.dropCalls (PgRelation.fromPtr 0) = [] ∧
    PgRelation.dropCalls (PgRelation.fromPtr 0) ≠
      [CloseCall.RelationClose (PgRelation.fromPtr 0).boxed] := by
  decide

/-- C8, amended: for a handle wrapping a non-null relation pointer, drop
issues exactly the lock-releasing `relation_close(rel, m)` when a lock
mode `m` was recorded and exactly the non-releasing `RelationClose(rel)`
when none was; a handle wrapping a null pointer (only constructible via
the `From` conversion — `open` panics instead of producing one, and the
host's `relation_open` never returns null) issues neither. -/
theorem pgrelation_drop_close_discipline :
    (∀ (r : PgRelation) (m : Int), r.boxed ≠ 0 → r.lockmode = some m →
        r.dropCalls = [CloseCall.relation_close r.boxed m]) ∧
    (∀ r : PgRelation, r.boxed ≠ 0 → r.lockmode = Option.none →
        r.dropCalls = [CloseCall.RelationClose r.boxed]) ∧
    (∀ r : PgRelation, r.boxed = 0 → r.dropCalls = []) ∧
    (∀ (host : Nat → Int → Nat) (oid : Nat) (m : Int), host oid m ≠ 0 →
        (PgRelation.with_lock host oid m).dropCalls =
          [CloseCall.relation_close (host oid m) m]) ∧
    (∀ (hostGetRel : Nat → Nat) (oid : Nat) (r : PgRelation),
        PgRelation.openRel hostGetRel oid = some r →
        r.boxed ≠ 0 ∧ r.lockmode = Option.none ∧
          r.dropCalls = [CloseCall.RelationClose r.boxed]) := by
  refine ⟨?_, ?_, ?_, ?_, ?_⟩
  · intro r m hb hm
    simp [PgRelation.dropCalls, hb, hm]
  · intro r hb hm
    simp [PgRelation.dropCalls, hb, hm]
  · intro r hb
    simp [PgRelation.dropCalls, hb]
  · intro host oid m h
    simp [PgRelation.dropCalls, PgRelation.with_lock, h]
  · intro hostGetRel oid r h
    by_cases h0 : hostGetRel oid = 0
    · simp [PgRelation.openRel, h0] at h
    · simp [PgRelation.openRel, h0] at h
      subst h
      simp [PgRelation.dropCalls, h0]

/-- Witness for `pgrelation_drop_close_discipline` at concrete handles. -/
theorem pgrelation_drop_close_discipline_witness :
    PgRelation.dropCalls ⟨5, some 3⟩ = [CloseCall.relation_close 5 3] ∧
    PgRelation.dropCalls ⟨7, Option.none⟩ = [CloseCall.RelationClose 7] :=
  ⟨pgrelation_drop_close_discipline.1 ⟨5, some 3⟩ 3 (by decide) rfl,
   pgrelation_drop_close_discipline.2.1 ⟨7, Option.none⟩ (by decide) rfl⟩

/-- C10: `PgPtr::<List>::new()` performs no host call (the heap is
untouched) and returns the null handle; on the null handle `len()` is 0,
`is_empty()` is true, and `get_ptr`/`get_i32`/`get_oid` return `None` for
every index `i ≥ 0`. -/
theorem list_new_is_null_and_empty (h : HostHeap) (i : Int) (hi : 0 ≤ i) :
    pgListNew h = (h, 0) ∧
    pgListLen h 0 = 0 ∧
    pgListIsEmpty h 0 = true ∧
    getI32 h 0 i = .ok Option.none ∧
    getOid h 0 i = .ok Option.none ∧
    getPtr h 0 i = .ok Option.none := by
  have hlen : pgListLen h 0 = 0 := by simp [pgListLen]
  have hge : i ≥ pgListLen h 0 := by omega
  refine ⟨rfl, hlen, ?_, ?_, ?_, ?_⟩
  · simp [pgListIsEmpty, hlen]
  · simp [getI32, hge]
  · simp [getOid, hge]
  · simp [getPtr, hge]

/-- Witness for `list_new_is_null_and_empty` at a concrete heap/index. -/
theorem list_new_is_null_and_empty_witness :
    (0 : Int) ≤ 0 ∧ getI32 ⟨[], 1⟩ 0 0 = .ok Option.none :=
  ⟨by decide, (list_new_is_null_and_empty ⟨[], 1⟩ 0 (by decide)).2.2.2.1⟩

/-- C1, code evaluated at the failing input: on a null/empty list, the
Rust-side bound check `i >= self.len()` does not catch the negative index
`len() - 1 = -1`, so `pop_i32` (likewise `pop_ptr`, `pop_oid`) hands the
host `pgx_list_nth_*(NIL, -1)` — a fault, never `None`.  The trailing
conjuncts confirm the other half of the claim at a concrete input:
`push_i32(5)` then `pop_i32()` returns `Some(5)` and the reported length
drops from 1 to 0. -/
theorem pop_on_empty_list_faults :
    (∀ h : HostHeap,
      popI32 h 0 = .fault ∧ popOid h 0 = .fault ∧ popPtr h 0 = .fault ∧
      getI32 h 0 (-1) = .fault) ∧
    pushI32 ⟨[], 1⟩ 0 5 = (⟨[(1, [(2, 5)])], 3⟩, 1) ∧
    pgListLen ⟨[(1, [(2, 5)])], 3⟩ 1 = 1 ∧
    popI32 ⟨[(1, [(2, 5)])], 3⟩ 1 = .ok (some 5, ⟨[(1, [(2, 5)])], 3⟩, 0) ∧
    pgListLen ⟨[(1, [(2, 5)])], 3⟩ 0 = 0 := by
  refine ⟨fun h => ?_, by decide, by decide, by decide, by decide⟩
  have hget : getI32 h 0 (-1) = .fault := by
    simp [getI32, pgListLen, pgxListNthInt, hostNthCell]
  have hgeto : getOid h 0 (-1) = .fault := by
    simp [getOid, pgListLen, pgxListNthOid, hostNthCell]
  have hgetp : getPtr h 0 (-1) = .fault := by
    simp [getPtr, pgListLen, pgxListNthPtr, hostNthCell]
  refine ⟨?_, ?_, ?_, hget⟩
  · simp [popI32, tailI32, pgListLen, hget]
  · simp [popOid, tailOid, pgListLen, hgeto]
  · simp [popPtr, tailPtr, pgListLen, hgetp]

/-- C3, counterexample: `replace_i32` calls the host routine
`pgx_list_nth_cell`, whose result here is the cell at address 10, but the
handle keeps its old address 2 — it is not reassigned from that routine's
result (nor from any other host result): the claim fails for the
`replace_*` operations. -/
theorem replace_does_not_reassign_handle :
    replaceI32 ⟨[(2, [(10, 7)])], 11⟩ 2 0 99 =
      .ok (some 7, ⟨[(2, [(10, 99)])], 11⟩, 2) ∧
    pgxListNthCell ⟨[(2, [(10, 7)])], 11⟩ 2 0 = some 10 ∧
    (2 : Nat) ≠ 10 := by
  decide

/-- C3, amended: `push_*` and `pop_*` call host list-management routines
(`lappend*`, `list_truncate`) and reassign the handle's address from the
routine's result — observably so: push on a null list adopts the host's
fresh address, and popping a one-element list adopts `NIL` from
`list_truncate`.  `replace_*` calls the host cell routine
`pgx_list_nth_cell` but writes the element in place and always leaves the
handle's address unchanged. -/
theorem mutation_ops_address_discipline :
    (∀ (h : HostHeap) (p : Nat) (x : Int),
        pushI32 h p x = lappendVal h p x ∧ pushOid h p x = lappendVal h p x ∧
        pushPtr h p x = lappendVal h p x) ∧
    (∀ (h : HostHeap) (x : Int), HeapWF h →
        (pushI32 h 0 x).2 = h.nextAddr ∧ (pushI32 h 0 x).2 ≠ 0) ∧
    (∀ (h : HostHeap) (p : Nat) (c : Nat × Int), p ≠ 0 →
        lookupL h.lists p = some [c] →
        popI32 h p = .ok (some c.2, h, 0) ∧ (0 : Nat) ≠ p) ∧
    (∀ (h : HostHeap) (p : Nat) (i x : Int) (r : Option Int × HostHeap × Nat),
        replaceI32 h p i x = .ok r → r.2.2 = p) ∧
    (∀ (h : HostHeap) (p : Nat) (i x : Int) (r : Option Int × HostHeap × Nat),
        replaceOid h p i x = .ok r → r.2.2 = p) ∧
    (∀ (h : HostHeap) (p : Nat) (i x : Int) (r : Option Int × HostHeap × Nat),
        replacePtr h p i x = .ok r → r.2.2 = p) := by
  refine ⟨fun h p x => ⟨rfl, rfl, rfl⟩, fun h x hwf => ?_, fun h p c hp hc => ?_,
    fun h p i x r hr => ?_, fun h p i x r hr => ?_, fun h p i x r hr => ?_⟩
  · unfold HeapWF at hwf
    constructor
    · simp [pushI32, lappendVal]
    · simp [pushI32, lappendVal]
      omega
  · have hlen : pgListLen h p = 1 := by
      simp [pgListLen, hp, cellsOf, hc]
    have htail : tailI32 h p = .ok (some c.2) := by
      simp [tailI32, hlen, getI32, pgxListNthInt, hostNthCell, hp, hc]
    have htr : listTruncate h p (pgListLen h p - 1) = (h, 0) := by
      simp [listTruncate, hp, hlen]
    refine ⟨?_, fun h0 => hp h0.symm⟩
    simp [popI32, htail, htr]
  · cases hg : getI32 h p i with
    | fault => simp [replaceI32, hg] at hr
    | ok v =>
      cases v with
      | none =>
        simp [replaceI32, hg] at hr
        simp [← hr]
      | some old =>
        cases hcell : pgxListNthCell h p i with
        | none => simp [replaceI32, hg, hcell] at hr
        | some cell =>
          simp [replaceI32, hg, hcell] at hr
          simp [← hr]
  · cases hg : getOid h p i with
    | fault => simp [replaceOid, hg] at hr
    | ok v =>
      cases v with
      | none =>
        simp [replaceOid, hg] at hr
        simp [← hr]
      | some old =>
        cases hcell : pgxListNthCell h p i with
        | none => simp [replaceOid, hg, hcell] at hr
        | some cell =>
          simp [replaceOid, hg, hcell] at hr
          simp [← hr]
  · cases hg : getPtr h p i with
    | fault => simp [replacePtr, hg] at hr
    | ok v =>
      cases v with
      | none =>
        simp [replacePtr, hg] at hr
        simp [← hr]
      | some old =>
        cases hcell : pgxListNthCell h p i with
        | none => simp [replacePtr, hg, hcell] at hr
        | some cell =>
          simp [replacePtr, hg, hcell] at hr
          simp [← hr]

/-- Witness for `mutation_ops_address_discipline` at concrete inputs. -/
theorem mutation_ops_address_discipline_witness :
    ((2 : Nat) ≠ 0 ∧ lookupL [(2, [(10, 7)])] 2 = some [(10, 7)] ∧
      popI32 ⟨[(2, [(10, 7)])], 11⟩ 2 = .ok (some 7, ⟨[(2, [(10, 7)])], 11⟩, 0)) ∧
    (replaceOid ⟨[(2, [(10, 7)])], 11⟩ 2 0 4 =
        .ok (some 7, ⟨[(2, [(10, 4)])], 11⟩, 2) ∧
      (((some (7 : Int), (⟨[(2, [(10, 4)])], 11⟩ : HostHeap), (2 : Nat))).2.2 = 2)) :=
  ⟨⟨by decide, by decide,
      (mutation_ops_address_discipline.2.2.1 ⟨[(2, [(10, 7)])], 11⟩ 2 (10, 7)
        (by decide) (by decide)).1⟩,
   ⟨by decide,
      mutation_ops_address_discipline.2.2.2.2.1 ⟨[(2, [(10, 7)])], 11⟩ 2 0 4
        (some 7, ⟨[(2, [(10, 4)])], 11⟩, 2) (by decide)⟩⟩

/-! ### Helper lemmas on the item-level rewriter -/

theorem structIdents_cons (it : ItemM) (tl : List ItemM) :
    structIdents (it :: tl) =
      (match it with
       | .structItem name _ => name :: structIdents tl
       | _ => structIdents tl) := by
  cases it <;> rfl

theorem structIdents_mem {items : List ItemM} {name : String}
    {fields : List RsType} (h : ItemM.structItem name fields ∈ items) :
    name ∈ structIdents items := by
  induction items with
  | nil => cases h
  | cons it tl ih =>
    rw [structIdents_cons]
    rcases List.mem_cons.mp h with heq | hmem
    · subst heq
      exact List.mem_cons_self _ _
    · cases it with
      | structItem n f => exact List.mem_cons_of_mem _ (ih hmem)
      | foreignMod a fi => exact ih hmem
      | typeAlias nm b => exact ih hmem
      | newImpl s => exact ih hmem
      | otherItem => exact ih hmem

theorem structIdents_replaceTypeAliases (items : List ItemM) :
    structIdents (replaceTypeAliasesFile items) = structIdents items := by
  unfold replaceTypeAliasesFile
  generalize buildAliases items = m
  induction items with
  | nil => rfl
  | cons it tl ih =>
    rw [List.map_cons, structIdents_cons, structIdents_cons]
    cases it <;> simp [applyAliasItem, ih]

theorem mem_newImpls {n : String} {ns : List String} :
    ItemM.newImpl n ∈ newImpls ns ↔ n ∈ ns ∧ exemptStruct n = false := by
  simp only [newImpls, List.mem_map, List.mem_filter]
  constructor
  · rintro ⟨a, ⟨ha, he⟩, heq⟩
    cases heq
    exact ⟨ha, by simpa using he⟩
  · rintro ⟨ha, he⟩
    exact ⟨n, ⟨ha, by simp [he]⟩, rfl⟩

theorem rewriteItem_eq_newImpl {it : ItemM} {n : String}
    (h : rewriteItem it = .newImpl n) : it = .newImpl n := by
  cases it <;> simp_all [rewriteItem, rewriteForeignMod]

theorem applyAliasItem_eq_newImpl {m : AliasMap} {it : ItemM} {n : String}
    (h : applyAliasItem m it = .newImpl n) : it = .newImpl n := by
  cases it <;> simp_all [applyAliasItem]

theorem newImpl_mem_rewriteFile_iff {items : List ItemM} {n : String}
    (hno : ∀ k : String, ItemM.newImpl k ∉ items) :
    ItemM.newImpl n ∈ rewriteFile items ↔
      n ∈ structIdents items ∧ exemptStruct n = false := by
  unfold rewriteFile
  constructor
  · intro h
    rcases List.mem_append.mp h with h1 | h2
    · exfalso
      rcases List.mem_map.mp h1 with ⟨it, hit, heq⟩
      have hit' := rewriteItem_eq_newImpl heq
      subst hit'
      rcases List.mem_map.mp hit with ⟨it0, hit0, heq0⟩
      have := applyAliasItem_eq_newImpl heq0
      subst this
      exact hno n hit0
    · rw [structIdents_replaceTypeAliases] at h2
      exact mem_newImpls.mp h2
  · intro ⟨hn, he⟩
    apply List.mem_append_right
    rw [structIdents_replaceTypeAliases]
    exact mem_newImpls.mpr ⟨hn, he⟩

/-- C5: every `extern "C"` block (`Item::ForeignMod`) in the rewriter's
output carries the `#[pg_guard]` call-boundary-guard attribute — with no
exceptions. -/
theorem every_foreign_mod_guarded (items : List ItemM) (attrs : List String)
    (fitems : List ForeignItemM)
    (hmem : ItemM.foreignMod attrs fitems ∈ rewriteFile items) :
    "pg_guard" ∈ attrs := by
  unfold rewriteFile at hmem
  rcases List.mem_append.mp hmem with h1 | h2
  · rcases List.mem_map.mp h1 with ⟨it, _, heq⟩
    cases it with
    | foreignMod a fi =>
      simp only [rewriteItem, rewriteForeignMod, ItemM.foreignMod.injEq] at heq
      rw [← heq.1]
      simp
    | structItem name fields => simp [rewriteItem] at heq
    | typeAlias name body => simp [rewriteItem] at heq
    | newImpl s => simp [rewriteItem] at heq
    | otherItem => simp [rewriteItem] at heq
  · exfalso
    rcases List.mem_map.mp h2 with ⟨a, _, heq⟩
    cases heq

/-- Witness for `every_foreign_mod_guarded`: an unannotated extern block
comes out of the rewriter carrying `#[pg_guard]`. -/
theorem every_foreign_mod_guarded_witness :
    "pg_guard" ∈ (["pg_guard"] : List String) :=
  every_foreign_mod_guarded [.foreignMod [] []] ["pg_guard"] [] (by decide)

/-- C6: for every struct `S` the rewriter emits whose name is not `List`,
not `RelationData`, and does not start with `_`, the output contains the
synthesized `impl New for PgPtr<S>` (providing both `new` and `new0`),
whose bodies request exactly `size_of::<S>()` bytes via the raw host
allocation primitives `palloc`/`palloc0`, drawing from the arena that is
`CurrentMemoryContext` at call time; structs in the exemption set get no
synthesized constructor. -/
theorem constructors_synthesized (items : List ItemM)
    (hno : ∀ k : String, ItemM.newImpl k ∉ items)
    (sname : String) (fields : List RsType)
    (hmem : ItemM.structItem sname fields ∈ rewriteFile items) :
    (exemptStruct sname = false → ItemM.newImpl sname ∈ rewriteFile items) ∧
    (exemptStruct sname = true → ItemM.newImpl sname ∉ rewriteFile items) ∧
    (∀ (szOf : String → Nat) (s : MemCxtState),
      runNew sname szOf s =
        ({ s with log := s.log ++ [⟨s.current, szOf sname, false⟩],
                  nextPtr := s.nextPtr + 1 }, s.nextPtr) ∧
      runNew0 sname szOf s =
        ({ s with log := s.log ++ [⟨s.current, szOf sname, true⟩],
                  nextPtr := s.nextPtr + 1 }, s.nextPtr)) := by
  have hname : sname ∈ structIdents items := by
    unfold rewriteFile at hmem
    rcases List.mem_append.mp hmem with h1 | h2
    · rcases List.mem_map.mp h1 with ⟨it, hit, heq⟩
      cases it with
      | structItem n f =>
        simp only [rewriteItem, ItemM.structItem.injEq] at heq
        rw [← structIdents_replaceTypeAliases items]
        rw [← heq.1]
        exact structIdents_mem hit
      | foreignMod a fi => simp [rewriteItem, rewriteForeignMod] at heq
      | typeAlias name body => simp [rewriteItem] at heq
      | newImpl s => simp [rewriteItem] at heq
      | otherItem => simp [rewriteItem] at heq
    · exfalso
      rcases List.mem_map.mp h2 with ⟨a, _, heq⟩
      cases heq
  refine ⟨?_, ?_, ?_⟩
  · intro he
    exact (newImpl_mem_rewriteFile_iff hno).mpr ⟨hname, he⟩
  · intro he hmem'
    have := ((newImpl_mem_rewriteFile_iff hno).mp hmem').2
    rw [he] at this
    cases this
  · intro szOf s
    exact ⟨rfl, rfl⟩

/-- Witness for `constructors_synthesized`: a struct named `S` gets its
`New` impl, and running the synthesized `new` logs one uninitialized
request of `size_of::<S>()` bytes against the active arena. -/
theorem constructors_synthesized_witness :
    ItemM.newImpl "S" ∈ rewriteFile [.structItem "S" []] ∧
    runNew "S" (fun _ => 16) ⟨1, 2, 3, 4, 5, 6, 7, 8, 9, 10, [], [], 20⟩ =
      (⟨1, 2, 3, 4, 5, 6, 7, 8, 9, 10, [], [⟨1, 16, false⟩], 21⟩, 20) := by
  have h := constructors_synthesized [.structItem "S" []]
    (by intro k hk; simp at hk) "S" [] (by decide)
  exact ⟨h.1 (by decide), (h.2.2 (fun _ => 16) ⟨1, 2, 3, 4, 5, 6, 7, 8, 9, 10, [], [], 20⟩).1⟩

/-! ### Helper lemmas on the alias-resolution pass -/

theorem lookupAlias_mem {m : AliasMap} {k : String} {v : Segs}
    (h : lookupAlias m k = some v) : (k, v) ∈ m := by
  induction m with
  | nil => cases h
  | cons kv tl ih =>
    obtain ⟨k0, v0⟩ := kv
    by_cases hk : k0 = k
    · subst hk
      simp [lookupAlias] at h
      subst h
      exact List.Mem.head _
    · simp [lookupAlias, hk] at h
      exact List.Mem.tail _ (ih h)

theorem resolvedMap_spec {m : AliasMap} (hm : resolvedMap m = true)
    {k : String} {v : Segs} (hkv : (k, v) ∈ m) :
    hasAliasUse m (.path v) = false := by
  have := List.all_eq_true.mp hm (k, v) hkv
  simpa using this

mutual

theorem replaceAlias_elim (m : AliasMap) (hm : resolvedMap m = true) :
    (t : RsType) → hasAliasUse m (replaceAlias m t) = false
  | .ptr e => by
      simpa [replaceAlias, hasAliasUse] using replaceAlias_elim m hm e
  | .array e => by simp [replaceAlias, hasAliasUse]
  | .bareFn i o => by
      simp [replaceAlias, hasAliasUse, replaceAliasTypes_elim m hm i,
        replaceAlias_elim m hm o]
  | .group e => by
      simpa [replaceAlias, hasAliasUse] using replaceAlias_elim m hm e
  | .paren e => by
      simpa [replaceAlias, hasAliasUse] using replaceAlias_elim m hm e
  | .path .nil => by simp [replaceAlias, hasAliasUse]
  | .path (.cons ident args tl) => by
      cases hlk : lookupAlias m ident with
      | some target =>
          have hmem := lookupAlias_mem hlk
          have htgt := resolvedMap_spec hm hmem
          simp [replaceAlias, hlk, hasAliasUse, htgt]
      | none =>
          simp [replaceAlias, hlk, hasAliasUse,
            replaceAliasArgs_elim m hm args, replaceAliasSegs_elim m hm tl]
  | .other => by simp [replaceAlias, hasAliasUse]

theorem replaceAliasTypes_elim (m : AliasMap) (hm : resolvedMap m = true) :
    (ts : RsTypes) → hasAliasUseTypes m (replaceAliasTypes m ts) = false
  | .nil => by simp [replaceAliasTypes, hasAliasUseTypes]
  | .cons hd tl => by
      simp [replaceAliasTypes, hasAliasUseTypes, replaceAlias_elim m hm hd,
        replaceAliasTypes_elim m hm tl]

theorem replaceAliasSegs_elim (m : AliasMap) (hm : resolvedMap m = true) :
    (segs : Segs) → hasAliasUseSegs m (replaceAliasSegs m segs) = false
  | .nil => by simp [replaceAliasSegs, hasAliasUseSegs]
  | .cons ident args tl => by
      simp [replaceAliasSegs, hasAliasUseSegs, replaceAliasArgs_elim m hm args,
        replaceAliasSegs_elim m hm tl]

theorem replaceAliasArgs_elim (m : AliasMap) (hm : resolvedMap m = true) :
    (args : Args) → hasAliasUseArgs m (replaceAliasArgs m args) = false
  | .none => by simp [replaceAliasArgs, hasAliasUseArgs]
  | .angle args => by
      simp [replaceAliasArgs, hasAliasUseArgs, replaceAliasTypes_elim m hm args]
  | .parenthesized i o => by
      simp [replaceAliasArgs, hasAliasUseArgs, replaceAliasTypes_elim m hm i,
        replaceAlias_elim m hm o]

end

/-- No live alias use remains in a foreign item after the pass. -/
def fitemAliasFree (m : AliasMap) : ForeignItemM → Bool
  | .fnItem _ inputs output =>
      (inputs.all fun t => !hasAliasUse m t) && !hasAliasUse m output
  | .staticItem _ ty => !hasAliasUse m ty
  | .otherForeign => true

/-- No live alias use remains at any of the positions
`replace_type_aliases` rewrites: struct fields, foreign fn parameter and
return types, foreign statics, and type alias bodies. -/
def itemAliasFree (m : AliasMap) : ItemM → Bool
  | .structItem _ fields => fields.all fun t => !hasAliasUse m t
  | .foreignMod _ fitems => fitems.all (fitemAliasFree m)
  | .typeAlias _ body => !hasAliasUse m body
  | _ => true

def itemsAliasFree (m : AliasMap) (items : List ItemM) : Bool :=
  items.all (itemAliasFree m)

/-- C7: for every type alias whose body is a single-level pointer to a
named type (an entry of the alias map), the alias-resolution pass
replaces every use site of the alias name with an explicit raw pointer to
the resolved target — a direct use becomes `*mut target`, a use nested in
the generic arguments of an unmapped name is still resolved, a name with
no entry is left in place (same head, recursively processed arguments)
and is never an error, and, for a map whose targets mention no aliased
name, no reachable use site survives the pass anywhere in the rewritten
file (struct fields, foreign fn parameters and returns, statics, alias
bodies). -/
theorem alias_resolution_pass :
    (∀ (m : AliasMap) (ident : String) (args : Args) (tl : Segs) (target : Segs),
        lookupAlias m ident = some target →
        replaceAlias m (.path (.cons ident args tl)) = .ptr (.path target)) ∧
    (∀ (m : AliasMap) (ident a : String) (args2 : Args) (tl2 : Segs) (target : Segs),
        lookupAlias m ident = Option.none → lookupAlias m a = some target →
        replaceAlias m (.path (.cons ident
            (.angle (.cons (.path (.cons a args2 tl2)) .nil)) .nil)) =
          .path (.cons ident (.angle (.cons (.ptr (.path target)) .nil)) .nil)) ∧
    (∀ (m : AliasMap) (ident : String) (args : Args) (tl : Segs),
        lookupAlias m ident = Option.none →
        replaceAlias m (.path (.cons ident args tl)) =
          .path (.cons ident (replaceAliasArgs m args) (replaceAliasSegs m tl))) ∧
    (∀ m : AliasMap, resolvedMap m = true →
        ∀ t : RsType, hasAliasUse m (replaceAlias m t) = false) ∧
    (∀ items : List ItemM, resolvedMap (buildAliases items) = true →
        itemsAliasFree (buildAliases items) (replaceTypeAliasesFile items) = true) := by
  have hdir : ∀ (m : AliasMap) (ident : String) (args : Args) (tl : Segs)
      (target : Segs), lookupAlias m ident = some target →
      replaceAlias m (.path (.cons ident args tl)) = .ptr (.path target) := by
    intro m ident args tl target hlk
    simp [replaceAlias, hlk]
  have hmiss : ∀ (m : AliasMap) (ident : String) (args : Args) (tl : Segs),
      lookupAlias m ident = Option.none →
      replaceAlias m (.path (.cons ident args tl)) =
        .path (.cons ident (replaceAliasArgs m args) (replaceAliasSegs m tl)) := by
    intro m ident args tl hlk
    simp [replaceAlias, hlk]
  refine ⟨hdir, ?_, hmiss, fun m hm t => replaceAlias_elim m hm t, ?_⟩
  · intro m ident a args2 tl2 target hmissid hhit
    rw [hmiss m ident _ _ hmissid]
    simp [replaceAliasArgs, replaceAliasTypes, replaceAliasSegs,
      hdir m a args2 tl2 target hhit]
  · intro items hm
    unfold replaceTypeAliasesFile
    apply List.all_eq_true.mpr
    intro it hit
    rcases List.mem_map.mp hit with ⟨it0, _, heq⟩
    subst heq
    cases it0 with
    | structItem n fields =>
        simp only [applyAliasItem, itemAliasFree, List.all_map, List.all_eq_true,
          Function.comp]
        intro t _
        simp [replaceAlias_elim _ hm t]
    | foreignMod attrs fitems =>
        simp only [applyAliasItem, itemAliasFree, List.all_map, List.all_eq_true,
          Function.comp]
        intro fit _
        cases fit with
        | fnItem n inputs output =>
            simp only [fitemAliasFree, List.all_map, Bool.and_eq_true,
              List.all_eq_true, Function.comp]
            constructor
            · intro t _
              simp [replaceAlias_elim _ hm t]
            · simp [replaceAlias_elim _ hm output]
        | staticItem n ty =>
            simp [fitemAliasFree, replaceAlias_elim _ hm ty]
        | otherForeign => rfl
    | typeAlias n body =>
        simp [applyAliasItem, itemAliasFree, replaceAlias_elim _ hm body]
    | newImpl s => rfl
    | otherItem => rfl

/-- Witness for `alias_resolution_pass`: with the map
`Relation ↦ RelationData`, a direct use of `Relation` becomes
`*mut RelationData`, a use nested in a generic argument of the unmapped
`Option` is resolved as well, and the pass leaves no use site behind. -/
theorem alias_resolution_pass_witness :
    replaceAlias [("Relation", .cons "RelationData" .none .nil)]
        (pathOf "Relation") =
      .ptr (.path (.cons "RelationData" .none .nil)) ∧
    replaceAlias [("Relation", .cons "RelationData" .none .nil)]
        (.path (.cons "Option"
          (.angle (.cons (pathOf "Relation") .nil)) .nil)) =
      .path (.cons "Option"
        (.angle (.cons (.ptr (.path (.cons "RelationData" .none .nil))) .nil)) .nil) ∧
    hasAliasUse [("Relation", .cons "RelationData" .none .nil)]
        (replaceAlias [("Relation", .cons "RelationData" .none .nil)]
          (.ptr (pathOf "Relation"))) = false :=
  ⟨alias_resolution_pass.1 [("Relation", .cons "RelationData" .none .nil)]
      "Relation" .none .nil (.cons "RelationData" .none .nil) (by decide),
   alias_resolution_pass.2.1 [("Relation", .cons "RelationData" .none .nil)]
      "Option" "Relation" .none .nil (.cons "RelationData" .none .nil)
      (by decide) (by decide),
   alias_resolution_pass.2.2.2.1 [("Relation", .cons "RelationData" .none .nil)]
      (by decide) (.ptr (pathOf "Relation"))⟩

/-! ### Helper lemmas on the pointer-wrapping fixed point -/

mutual

theorem rewriteType_flag : (t : RsType) → (rewriteType t).2 = reachHasPtr t
  | .ptr e => by simp [rewriteType, reachHasPtr]
  | .bareFn i o => by
      simp [rewriteType, reachHasPtr, rewriteTypes_flag i, rewriteType_flag o]
  | .group e => by simp [rewriteType, reachHasPtr, rewriteType_flag e]
  | .paren e => by simp [rewriteType, reachHasPtr, rewriteType_flag e]
  | .path segs => by simp [rewriteType, reachHasPtr, rewriteSegs_flag segs]
  | .array e => by simp [rewriteType, reachHasPtr]
  | .other => by simp [rewriteType, reachHasPtr]

theorem rewriteTypes_flag : (ts : RsTypes) → (rewriteTypes ts).2 = reachHasPtrTypes ts
  | .nil => by simp [rewriteTypes, reachHasPtrTypes]
  | .cons hd tl => by
      simp [rewriteTypes, reachHasPtrTypes, rewriteType_flag hd, rewriteTypes_flag tl]

theorem rewriteSegs_flag : (segs : Segs) → (rewriteSegs segs).2 = reachHasPtrSegs segs
  | .nil => by simp [rewriteSegs, reachHasPtrSegs]
  | .cons ident args tl => by
      simp [rewriteSegs, reachHasPtrSegs, rewriteArgs_flag args, rewriteSegs_flag tl]

theorem rewriteArgs_flag : (args : Args) → (rewriteArgs args).2 = reachHasPtrArgs args
  | .none => by simp [rewriteArgs, reachHasPtrArgs]
  | .angle args => by simp [rewriteArgs, reachHasPtrArgs, rewriteTypes_flag args]
  | .parenthesized i o => by
      simp [rewriteArgs, reachHasPtrArgs, rewriteTypes_flag i, rewriteType_flag o]

end

mutual

theorem rewriteType_id_of_false :
    (t : RsType) → (rewriteType t).2 = false → (rewriteType t).1 = t
  | .ptr e => by intro h; simp [rewriteType] at h
  | .bareFn i o => by
      intro h
      simp only [rewriteType, Bool.or_eq_false_iff] at h
      simp [rewriteType, rewriteTypes_id_of_false i h.1, rewriteType_id_of_false o h.2]
  | .group e => by
      intro h
      simp only [rewriteType] at h
      simp [rewriteType, rewriteType_id_of_false e h]
  | .paren e => by
      intro h
      simp only [rewriteType] at h
      simp [rewriteType, rewriteType_id_of_false e h]
  | .path segs => by
      intro h
      simp only [rewriteType] at h
      simp [rewriteType, rewriteSegs_id_of_false segs h]
  | .array e => by intro _; rfl
  | .other => by intro _; rfl

theorem rewriteTypes_id_of_false :
    (ts : RsTypes) → (rewriteTypes ts).2 = false → (rewriteTypes ts).1 = ts
  | .nil => by intro _; rfl
  | .cons hd tl => by
      intro h
      simp only [rewriteTypes, Bool.or_eq_false_iff] at h
      simp [rewriteTypes, rewriteType_id_of_false hd h.1, rewriteTypes_id_of_false tl h.2]

theorem rewriteSegs_id_of_false :
    (segs : Segs) → (rewriteSegs segs).2 = false → (rewriteSegs segs).1 = segs
  | .nil => by intro _; rfl
  | .cons ident args tl => by
      intro h
      simp only [rewriteSegs, Bool.or_eq_false_iff] at h
      simp [rewriteSegs, rewriteArgs_id_of_false args h.1, rewriteSegs_id_of_false tl h.2]

theorem rewriteArgs_id_of_false :
    (args : Args) → (rewriteArgs args).2 = false → (rewriteArgs args).1 = args
  | .none => by intro _; rfl
  | .angle args => by
      intro h
      simp only [rewriteArgs] at h
      simp [rewriteArgs, rewriteTypes_id_of_false args h]
  | .parenthesized i o => by
      intro h
      simp only [rewriteArgs, Bool.or_eq_false_iff] at h
      simp [rewriteArgs, rewriteTypes_id_of_false i h.1, rewriteType_id_of_false o h.2]

end

mutual

theorem rewriteType_count : (t : RsType) →
    reachPtrCount (rewriteType t).1 ≤ reachPtrCount t ∧
    ((rewriteType t).2 = true → reachPtrCount (rewriteType t).1 < reachPtrCount t)
  | .ptr e => by
      simp [rewriteType, reachPtrCount, reachPtrCountSegs, reachPtrCountArgs,
        reachPtrCountTypes]
  | .bareFn i o => by
      have hi := rewriteTypes_count i
      have ho := rewriteType_count o
      simp only [rewriteType, reachPtrCount, Bool.or_eq_true]
      constructor
      · omega
      · rintro (h | h)
        · have := hi.2 h
          omega
        · have := ho.2 h
          omega
  | .group e => by
      have he := rewriteType_count e
      simpa [rewriteType, reachPtrCount] using he
  | .paren e => by
      have he := rewriteType_count e
      simpa [rewriteType, reachPtrCount] using he
  | .path segs => by
      have hs := rewriteSegs_count segs
      simpa [rewriteType, reachPtrCount] using hs
  | .array e => by simp [rewriteType, reachPtrCount]
  | .other => by simp [rewriteType, reachPtrCount]

theorem rewriteTypes_count : (ts : RsTypes) →
    reachPtrCountTypes (rewriteTypes ts).1 ≤ reachPtrCountTypes ts ∧
    ((rewriteTypes ts).2 = true →
      reachPtrCountTypes (rewriteTypes ts).1 < reachPtrCountTypes ts)
  | .nil => by simp [rewriteTypes, reachPtrCountTypes]
  | .cons hd tl => by
      have hh := rewriteType_count hd
      have ht := rewriteTypes_count tl
      simp only [rewriteTypes, reachPtrCountTypes, Bool.or_eq_true]
      constructor
      · omega
      · rintro (h | h)
        · have := hh.2 h
          omega
        · have := ht.2 h
          omega

theorem rewriteSegs_count : (segs : Segs) →
    reachPtrCountSegs (rewriteSegs segs).1 ≤ reachPtrCountSegs segs ∧
    ((rewriteSegs segs).2 = true →
      reachPtrCountSegs (rewriteSegs segs).1 < reachPtrCountSegs segs)
  | .nil => by simp [rewriteSegs, reachPtrCountSegs]
  | .cons ident args tl => by
      have ha := rewriteArgs_count args
      have ht := rewriteSegs_count tl
      simp only [rewriteSegs, reachPtrCountSegs, Bool.or_eq_true]
      constructor
      · omega
      · rintro (h | h)
        · have := ha.2 h
          omega
        · have := ht.2 h
          omega

theorem rewriteArgs_count : (args : Args) →
    reachPtrCountArgs (rewriteArgs args).1 ≤ reachPtrCountArgs args ∧
    ((rewriteArgs args).2 = true →
      reachPtrCountArgs (rewriteArgs args).1 < reachPtrCountArgs args)
  | .none => by simp [rewriteArgs, reachPtrCountArgs]
  | .angle args => by
      have ha := rewriteTypes_count args
      simpa [rewriteArgs, reachPtrCountArgs] using ha
  | .parenthesized i o => by
      have hi := rewriteTypes_count i
      have ho := rewriteType_count o
      simp only [rewriteArgs, reachPtrCountArgs, Bool.or_eq_true]
      constructor
      · omega
      · rintro (h | h)
        · have := hi.2 h
          omega
        · have := ho.2 h
          omega

end

/-- Enough fuel drives the `while rewrite_type(..) {}` loop to a state
with no pointer left at any position the pass can reach. -/
theorem rewriteFix_no_reach_ptr :
    ∀ (n : Nat) (t : RsType), reachPtrCount t < n →
      reachHasPtr (rewriteFix n t) = false := by
  intro n
  induction n with
  | zero => intro t ht; omega
  | succ k ih =>
    intro t ht
    by_cases hc : (rewriteType t).2 = true
    · have hlt := (rewriteType_count t).2 hc
      have hstep : rewriteFix (k + 1) t = rewriteFix k (rewriteType t).1 := by
        simp [rewriteFix, hc]
      rw [hstep]
      exact ih _ (by omega)
    · have hfalse : (rewriteType t).2 = false := by simpa using hc
      have hstep : rewriteFix (k + 1) t = (rewriteType t).1 := by
        simp [rewriteFix, hfalse]
      rw [hstep, rewriteType_id_of_false t hfalse, ← rewriteType_flag t]
      exact hfalse

theorem fixRewrite_no_reach_ptr (t : RsType) :
    reachHasPtr (fixRewrite t) = false :=
  rewriteFix_no_reach_ptr _ t (by omega)

/-- No raw pointer outside an array in a foreign item. -/
def fitemPtrWrapped : ForeignItemM → Bool
  | .fnItem _ inputs output =>
      (inputs.all fun t => !reachHasPtr t) && !reachHasPtr output
  | .staticItem _ ty => !reachHasPtr ty
  | .otherForeign => true

/-- No raw pointer outside an array at any rewritten position of an item:
struct fields, foreign fn parameter and return types, foreign statics,
type alias bodies. -/
def itemPtrWrapped : ItemM → Bool
  | .structItem _ fields => fields.all fun t => !reachHasPtr t
  | .foreignMod _ fitems => fitems.all fitemPtrWrapped
  | .typeAlias _ body => !reachHasPtr body
  | _ => true

def itemsPtrWrapped (items : List ItemM) : Bool :=
  items.all itemPtrWrapped

/-- A raw `Type::Ptr` at *any* depth (arrays included) in a foreign item. -/
def fitemHasRawPtr : ForeignItemM → Bool
  | .fnItem _ inputs output => inputs.any hasPtrAny || hasPtrAny output
  | .staticItem _ ty => hasPtrAny ty
  | .otherForeign => false

/-- A raw `Type::Ptr` at *any* depth in a struct field, foreign fn
parameter or return type, static type, or type alias body. -/
def itemHasRawPtr : ItemM → Bool
  | .structItem _ fields => fields.any hasPtrAny
  | .foreignMod _ fitems => fitems.any fitemHasRawPtr
  | .typeAlias _ body => hasPtrAny body
  | _ => false

def itemsHasRawPtr (items : List ItemM) : Bool :=
  items.any itemHasRawPtr

/-- C4, counterexample: `rewrite_type` has no arm for `Type::Array` (it
falls under `_ => {}`), so a raw pointer nested inside an array-typed
struct field — here `[*mut c_void; N]` — survives the whole rewrite: a
raw `Type::Ptr` remains in a struct field type of the output, refuting
"no raw pointer type remains". -/
theorem raw_ptr_survives_inside_array :
    itemsHasRawPtr
      (rewriteFile [.structItem "S" [.array (.ptr (pathOf "c_void"))]]) = true := by
  decide

/-- C4, amended: in the rewriter's output no raw pointer type remains in
any struct field, foreign fn parameter or return type, static type, or
type alias body at any position not nested inside an array type
(`rewrite_type` recurses through function pointers, parenthesized and
grouped types, generic arguments, and unwraps pointer-to-pointer chains
to nested `PgPtr` wrappers, but never enters `Type::Array`, whose
contents are left as-is). -/
theorem rewriter_wraps_all_reachable_ptrs (items : List ItemM) :
    itemsPtrWrapped (rewriteFile items) = true := by
  unfold rewriteFile itemsPtrWrapped
  rw [List.all_append, Bool.and_eq_true]
  constructor
  · apply List.all_eq_true.mpr
    intro it hit
    rcases List.mem_map.mp hit with ⟨it0, _, heq⟩
    subst heq
    cases it0 with
    | structItem n fields =>
        simp only [rewriteItem, itemPtrWrapped, List.all_map, List.all_eq_true,
          Function.comp]
        intro t _
        simp [fixRewrite_no_reach_ptr t]
    | foreignMod attrs fitems =>
        simp only [rewriteItem, rewriteForeignMod, itemPtrWrapped, List.all_map,
          List.all_eq_true, Function.comp]
        intro fit _
        cases fit with
        | fnItem n inputs output =>
            simp only [fitemPtrWrapped, List.all_map, Bool.and_eq_true,
              List.all_eq_true, Function.comp]
            constructor
            · intro t _
              simp [fixRewrite_no_reach_ptr t]
            · simp [fixRewrite_no_reach_ptr output]
        | staticItem n ty =>
            simp [fitemPtrWrapped, fixRewrite_no_reach_ptr ty]
        | otherForeign => rfl
    | typeAlias n body =>
        simp [rewriteItem, itemPtrWrapped, fixRewrite_no_reach_ptr body]
    | newImpl s => rfl
    | otherItem => rfl
  · apply List.all_eq_true.mpr
    intro it hit
    rcases List.mem_map.mp hit with ⟨a, _, heq⟩
    subst heq
    rfl

end Pgx
